import Mathlib

/-!
Verification of `config/registry_image_pruner/image_pruner/prune_images.py`.

The script prunes orphaned derived-artifact tags (`.sbom`, `.att`, `.src`,
`.sig`) from a Quay-compatible registry.  We embed the script shallowly:

* a `Tag` is a record with a `name` and an optional `manifest_digest`
  (`none` models a JSON object in which the key is absent);
* each HTTP interaction is driven by a script of responses supplied as
  input; functions return the list of observable `Action`s (requests and
  informational log lines) together with either a result or an `Err`
  describing the Python exception that propagates;
* `Err.noResponse` is a modelling artifact: it marks a run in which the
  supplied response script was exhausted while the loop in the code would
  have issued a further request.
-/

set_option linter.unusedVariables false

namespace PruneImages

/-- A tag as returned by the registry.  `manifest_digest = none` models a
tag dictionary that lacks the `manifest_digest` key (access raises
`KeyError` in the code). -/
structure Tag where
  name : String
  manifest_digest : Option String
deriving DecidableEq

/-- A repository descriptor (`{"namespace": ..., "name": ...}`).  The field
`namespace` of the JSON object is rendered `namespace_` because `namespace`
is a Lean keyword. -/
structure ImageRepo where
  namespace_ : String
  name : String
deriving DecidableEq

/-- The exceptions the script can raise. -/
inductive Err where
  /-- `RuntimeError(resp.reason)` raised by the explicit status checks. -/
  | runtimeError (reason : String)
  /-- `urllib.error.HTTPError` raised by `urlopen` on a 4xx/5xx status. -/
  | httpError (status : Nat) (reason : String)
  /-- `ValueError` raised by `main` when the token is missing. -/
  | valueError (msg : String)
  /-- `KeyError` from a missing dictionary key. -/
  | keyError (key : String)
  /-- `TypeError` from `None + 1` when `page` is absent. -/
  | typeError
  /-- Modelling artifact: the response script ran out. -/
  | noResponse
deriving DecidableEq

/-- Observable actions: HTTP requests issued and `INFO`-level log lines. -/
inductive Action where
  /-- `GET /repository?namespace=...[&next_page=...]`. -/
  | listReposReq (next_page : Option String)
  /-- `GET /repository/<ns>/<name>/tag/?limit=..&onlyActiveTags=..[&page=..]`. -/
  | listTagsReq (namespace_ name : String) (limit : Nat) (onlyActiveTags : Bool)
      (page : Option Int)
  /-- `LOGGER.info("Processing repository %s: %s/%s", ...)`. -/
  | processingRepo (idx : Nat) (namespace_ name : String)
  /-- `LOGGER.info("Tag %s from %s/%s should be removed", ...)` (dry run). -/
  | logWouldRemove (namespace_ name tagName : String)
  /-- `LOGGER.info("Removing tag %s from %s/%s", ...)`. -/
  | logRemoving (namespace_ name tagName : String)
  /-- `DELETE /repository/<ns>/<name>/tag/<tag>`. -/
  | deleteReq (namespace_ name tagName : String)
deriving DecidableEq

/-! ### The tag regex

`tag_regex = re.compile(r"^sha256-([0-9a-f]+)(\.sbom|\.att|\.src|\.sig)$")`
applied with `tag_regex.match(tag["name"])`.  The hex class `[0-9a-f]+` is
greedy and cannot overlap the literal dot that every suffix alternative
starts with, so the match is deterministic: the capture is the maximal run
of lowercase-hex characters after `sha256-`, and the remainder must be one
of the four suffixes.  Python's `$` also matches just before a single
trailing newline, which `tagRegexMatch` reproduces. -/

/-- Membership in the character class `[0-9a-f]`. -/
def isHexChar (c : Char) : Bool :=
  (decide ('0' ≤ c) && decide (c ≤ '9')) || (decide ('a' ≤ c) && decide (c ≤ 'f'))

/-- Strict (no trailing-newline) match of the tag regex on a character
list, returning the captured hex group. -/
def matchStrict (s : List Char) : Option (List Char) :=
  if "sha256-".data.isPrefixOf s then
    let rest := s.drop 7
    let hex := rest.takeWhile isHexChar
    let suffix := rest.dropWhile isHexChar
    if hex = [] then none
    else if suffix = ".sbom".data || suffix = ".att".data
        || suffix = ".src".data || suffix = ".sig".data then some hex
    else none
  else none

/-- `tag_regex.match name` returning the captured hex as a string.
Python `$` also matches just before a trailing `\n`. -/
def tagRegexMatch (name : String) : Option String :=
  match matchStrict name.data with
  | some hex => some (String.mk hex)
  | none =>
    if name.data.getLast? = some '\n' then
      (matchStrict name.data.dropLast).map String.mk
    else none

/-! ### Registry client -/

/-- `delete_image_tag`, as a function of the HTTP status and reason of the
response to the DELETE request.  `urlopen` raises `HTTPError` for any
status ≥ 400, which the code catches and re-raises unless it is 404; for a
status < 400 the code itself raises `RuntimeError` unless the status is
200 or 204. -/
def delete_image_tag (status : Nat) (reason : String) : Except Err Unit :=
  if 400 ≤ status then
    if status = 404 then Except.ok () else Except.error (Err.httpError status reason)
  else
    if status = 200 ∨ status = 204 then Except.ok ()
    else Except.error (Err.runtimeError reason)

/-- One parsed response of the tag-listing endpoint.  `tags = []` also
models an absent `tags` key (`json_data.get("tags", [])`); `page = none`
models an absent `page` key; `has_additional = false` models an absent
`has_additional` key. -/
structure TagsResp where
  status : Nat
  reason : String
  tags : List Tag
  page : Option Int
  has_additional : Bool
deriving DecidableEq

/-- The `while True` loop of `get_quay_tags`, consuming one scripted
response per iteration.  Returns the requests issued and either the
accumulated tag list or the exception raised. -/
def getQuayTagsGo (ns nm : String) (next_page : Option Int) (all_tags : List Tag) :
    List TagsResp → List Action × Except Err (List Tag)
  | [] => ([], Except.error Err.noResponse)
  | r :: rs =>
    let req := Action.listTagsReq ns nm 100 true next_page
    if 400 ≤ r.status then ([req], Except.error (Err.httpError r.status r.reason))
    else if r.status ≠ 200 then ([req], Except.error (Err.runtimeError r.reason))
    else
      let all := all_tags ++ r.tags
      if r.tags = [] then ([req], Except.ok all)
      else if r.has_additional then
        match r.page with
        | none => ([req], Except.error Err.typeError)
        | some p =>
          let rec_ := getQuayTagsGo ns nm (some (p + 1)) all rs
          (req :: rec_.1, rec_.2)
      else ([req], Except.ok all)

/-- `get_quay_tags(quay_token, namespace, name)` driven by a script of
responses. -/
def get_quay_tags (quay_token ns nm : String) (resps : List TagsResp) :
    List Action × Except Err (List Tag) :=
  getQuayTagsGo ns nm none [] resps

/-! ### Orphan detection and removal (`remove_tags`) -/

/-- `[image["manifest_digest"] for image in tags]`: raises `KeyError` at
the first tag lacking the key. -/
def collectDigests : List Tag → Except Err (List String)
  | [] => Except.ok []
  | t :: ts =>
    match t.manifest_digest with
    | none => Except.error (Err.keyError "manifest_digest")
    | some d =>
      match collectDigests ts with
      | Except.ok ds => Except.ok (d :: ds)
      | Except.error e => Except.error e

/-- A tag is orphaned with respect to a digest list when its name matches
the tag regex and the reconstructed digest `sha256:<hex>` is absent.  Used
to state claims; `removeTagsGo` below is the code's loop. -/
def isOrphanTag (digests : List String) (t : Tag) : Bool :=
  match tagRegexMatch t.name with
  | some hex => !(digests.contains ("sha256:" ++ hex))
  | none => false

/-- The `for tag in tags` loop of `remove_tags`.  `deleteResp` scripts the
status and reason of the DELETE response for each tag name. -/
def removeTagsGo (ns nm : String) (digests : List String)
    (deleteResp : String → Nat × String) (dry_run : Bool) :
    List Tag → List Action × Option Err
  | [] => ([], none)
  | t :: ts =>
    match tagRegexMatch t.name with
    | none => removeTagsGo ns nm digests deleteResp dry_run ts
    | some hex =>
      if digests.contains ("sha256:" ++ hex) then
        removeTagsGo ns nm digests deleteResp dry_run ts
      else if dry_run then
        let rec_ := removeTagsGo ns nm digests deleteResp dry_run ts
        (Action.logWouldRemove ns nm t.name :: rec_.1, rec_.2)
      else
        let sr := deleteResp t.name
        match delete_image_tag sr.1 sr.2 with
        | Except.ok _ =>
          let rec_ := removeTagsGo ns nm digests deleteResp dry_run ts
          (Action.logRemoving ns nm t.name :: Action.deleteReq ns nm t.name :: rec_.1,
            rec_.2)
        | Except.error e =>
          ([Action.logRemoving ns nm t.name, Action.deleteReq ns nm t.name], some e)

/-- `remove_tags(tags, quay_token, namespace, name, dry_run)`. -/
def remove_tags (tags : List Tag) (quay_token ns nm : String)
    (deleteResp : String → Nat × String) (dry_run : Bool) :
    List Action × Option Err :=
  match collectDigests tags with
  | Except.error e => ([], some e)
  | Except.ok ds => removeTagsGo ns nm ds deleteResp dry_run tags

/-! ### Orchestrator (`process_repositories`, `fetch_image_repos`, `main`)

`process_repositories` is driven by two oracles: `tagScript ns nm` is the
script of tag-listing responses for repository `ns/nm`, and
`deleteScript ns nm tag` is the status/reason of the DELETE response.  The
`ctr` argument threads the global `processed_repos_counter`. -/

/-- The body of `process_repositories` for a single repository. -/
def processOne (quay_token : String) (dry_run : Bool)
    (tagScript : String → String → List TagsResp)
    (deleteScript : String → String → String → Nat × String)
    (ctr : Nat) (repo : ImageRepo) : List Action × Option Err :=
  let ns := repo.namespace_
  let nm := repo.name
  let hd := Action.processingRepo ctr ns nm
  let listed := get_quay_tags quay_token ns nm (tagScript ns nm)
  match listed.2 with
  | Except.error e => (hd :: listed.1, some e)
  | Except.ok all_tags =>
    if all_tags = [] then (hd :: listed.1, none)
    else
      let removed := remove_tags all_tags quay_token ns nm (deleteScript ns nm) dry_run
      (hd :: listed.1 ++ removed.1, removed.2)

/-- `process_repositories(repos, quay_token, dry_run)`: processes the
repositories sequentially, propagating the first exception. -/
def process_repositories (quay_token : String) (dry_run : Bool)
    (tagScript : String → String → List TagsResp)
    (deleteScript : String → String → String → Nat × String)
    (ctr : Nat) : List ImageRepo → List Action × Option Err
  | [] => ([], none)
  | r :: rs =>
    let one := processOne quay_token dry_run tagScript deleteScript ctr r
    match one.2 with
    | some e => (one.1, some e)
    | none =>
      let rest := process_repositories quay_token dry_run tagScript deleteScript
        (ctr + 1) rs
      (one.1 ++ rest.1, rest.2)

/-- One parsed response of the repository-listing endpoint.
`repositories = []` also models an absent key
(`json_data.get("repositories", [])`); `next_page = none` models an absent
`next_page` key. -/
structure ReposResp where
  status : Nat
  reason : String
  repositories : List ImageRepo
  next_page : Option String
deriving DecidableEq

/-- The `while True` loop of the generator `fetch_image_repos`, consuming
one scripted response per iteration.  Returns the requests issued, the
batches yielded, and the exception raised, if any. -/
def fetchImageReposGo (access_token namespace_ : String) (next_page : Option String) :
    List ReposResp → List Action × List (List ImageRepo) × Option Err
  | [] => ([], [], some Err.noResponse)
  | r :: rs =>
    let req := Action.listReposReq next_page
    if 400 ≤ r.status then ([req], [], some (Err.httpError r.status r.reason))
    else if r.status ≠ 200 then ([req], [], some (Err.runtimeError r.reason))
    else if r.repositories = [] then ([req], [], none)
    else
      match r.next_page with
      | none => ([req], [r.repositories], none)
      | some np =>
        let rest := fetchImageReposGo access_token namespace_ (some np) rs
        (req :: rest.1, r.repositories :: rest.2.1, rest.2.2)

/-- `fetch_image_repos(access_token, namespace)` driven by a script of
responses. -/
def fetch_image_repos (access_token namespace_ : String) (resps : List ReposResp) :
    List Action × List (List ImageRepo) × Option Err :=
  fetchImageReposGo access_token namespace_ none resps

/-- The `for image_repos in fetch_image_repos(...)` loop of `main`.  The
generator is lazy: each repository-listing request is issued only when the
loop asks for the next batch, so an exception while processing a batch
stops the enumeration with no further requests. -/
def mainLoop (token namespace_ : String) (dry_run : Bool)
    (tagScript : String → String → List TagsResp)
    (deleteScript : String → String → String → Nat × String)
    (next_page : Option String) (ctr : Nat) :
    List ReposResp → List Action × Option Err
  | [] => ([], some Err.noResponse)
  | r :: rs =>
    let req := Action.listReposReq next_page
    if 400 ≤ r.status then ([req], some (Err.httpError r.status r.reason))
    else if r.status ≠ 200 then ([req], some (Err.runtimeError r.reason))
    else if r.repositories = [] then ([req], none)
    else
      let proc := process_repositories token dry_run tagScript deleteScript ctr
        r.repositories
      match proc.2 with
      | some e => (req :: proc.1, some e)
      | none =>
        match r.next_page with
        | none => (req :: proc.1, none)
        | some np =>
          let rest := mainLoop token namespace_ dry_run tagScript deleteScript
            (some np) (ctr + r.repositories.length) rs
          (req :: proc.1 ++ rest.1, rest.2)

/-- `main()`.  `quay_token` is `os.getenv("QUAY_TOKEN")` (`none` when the
variable is absent); `if not token` also rejects the empty string.  The
token check precedes argument parsing and every network call. -/
def main (quay_token : Option String) (namespace_ : String) (dry_run : Bool)
    (reposScript : List ReposResp)
    (tagScript : String → String → List TagsResp)
    (deleteScript : String → String → String → Nat × String) :
    List Action × Option Err :=
  match quay_token with
  | none =>
    ([], some (Err.valueError "The token required for access to Quay API is missing!"))
  | some token =>
    if token = "" then
      ([], some (Err.valueError "The token required for access to Quay API is missing!"))
    else
      mainLoop token namespace_ dry_run tagScript deleteScript none 0 reposScript

/-! ### Helper lemmas -/

/-- The digest comprehension succeeds exactly on lists in which every tag
carries a `manifest_digest`, and then returns those digests in order. -/
theorem collectDigests_ok_eq : ∀ {ts : List Tag} {ds : List String},
    collectDigests ts = Except.ok ds → ds = ts.filterMap Tag.manifest_digest := by
  intro ts
  induction ts with
  | nil =>
    intro ds h
    simp only [collectDigests] at h
    cases h
    rfl
  | cons t ts ih =>
    intro ds h
    cases hd : t.manifest_digest with
    | none => simp [collectDigests, hd] at h
    | some d =>
      cases hrec : collectDigests ts with
      | error e => simp [collectDigests, hd, hrec] at h
      | ok ds' =>
        simp only [collectDigests, hd, hrec] at h
        cases h
        simp [List.filterMap_cons, hd, ih hrec]

/-- The digest comprehension raises `KeyError` whenever some tag lacks the
`manifest_digest` key. -/
theorem collectDigests_error_of_none : ∀ {ts : List Tag},
    (∃ t ∈ ts, t.manifest_digest = none) →
    collectDigests ts = Except.error (Err.keyError "manifest_digest") := by
  intro ts
  induction ts with
  | nil => rintro ⟨t, ht, _⟩; cases ht
  | cons t ts ih =>
    rintro ⟨u, hu, hnone⟩
    rcases List.mem_cons.mp hu with h | h
    · subst h; simp [collectDigests, hnone]
    · cases hd : t.manifest_digest with
      | none => simp [collectDigests, hd]
      | some d => simp [collectDigests, hd, ih ⟨u, h, hnone⟩]

/-- Every action emitted by the `remove_tags` loop belongs to a tag of the
input whose name matches the tag regex and whose reconstructed digest is
absent from the digest list. -/
theorem removeTagsGo_mem_orphan (ns nm : String) (digests : List String)
    (deleteResp : String → Nat × String) (dry_run : Bool) :
    ∀ (ts : List Tag) (a : Action),
      a ∈ (removeTagsGo ns nm digests deleteResp dry_run ts).1 →
      ∃ t ∈ ts, ∃ hex, tagRegexMatch t.name = some hex ∧
        digests.contains ("sha256:" ++ hex) = false ∧
        (a = Action.logWouldRemove ns nm t.name ∨ a = Action.logRemoving ns nm t.name ∨
         a = Action.deleteReq ns nm t.name) := by
  intro ts
  induction ts with
  | nil => intro a ha; simp [removeTagsGo] at ha
  | cons t ts ih =>
    intro a ha
    cases hm : tagRegexMatch t.name with
    | none =>
      simp only [removeTagsGo, hm] at ha
      obtain ⟨u, hu, rest⟩ := ih a ha
      exact ⟨u, List.mem_cons_of_mem _ hu, rest⟩
    | some hex =>
      by_cases hc : digests.contains ("sha256:" ++ hex) = true
      · simp only [removeTagsGo, hm, hc, if_true] at ha
        obtain ⟨u, hu, rest⟩ := ih a ha
        exact ⟨u, List.mem_cons_of_mem _ hu, rest⟩
      · rw [Bool.not_eq_true] at hc
        cases dry_run with
        | true =>
          simp only [removeTagsGo, hm, hc] at ha
          rcases List.mem_cons.mp ha with h | h
          · exact ⟨t, List.mem_cons_self t ts, hex, hm, hc, Or.inl h⟩
          · obtain ⟨u, hu, rest⟩ := ih a h
            exact ⟨u, List.mem_cons_of_mem _ hu, rest⟩
        | false =>
          cases hdel : delete_image_tag (deleteResp t.name).1 (deleteResp t.name).2 with
          | ok u =>
            simp only [removeTagsGo, hm, hc, hdel] at ha
            rcases List.mem_cons.mp ha with h | h
            · exact ⟨t, List.mem_cons_self t ts, hex, hm, hc, Or.inr (Or.inl h)⟩
            · rcases List.mem_cons.mp h with h2 | h2
              · exact ⟨t, List.mem_cons_self t ts, hex, hm, hc, Or.inr (Or.inr h2)⟩
              · obtain ⟨u', hu, rest⟩ := ih a h2
                exact ⟨u', List.mem_cons_of_mem _ hu, rest⟩
          | error e =>
            simp only [removeTagsGo, hm, hc, hdel] at ha
            rcases List.mem_cons.mp ha with h | h
            · exact ⟨t, List.mem_cons_self t ts, hex, hm, hc, Or.inr (Or.inl h)⟩
            · rcases List.mem_cons.mp h with h2 | h2
              · exact ⟨t, List.mem_cons_self t ts, hex, hm, hc, Or.inr (Or.inr h2)⟩
              · simp at h2

/-- If no tag of the list is orphaned, the `remove_tags` loop emits no
action and raises nothing. -/
theorem removeTagsGo_no_orphans (ns nm : String) (digests : List String)
    (deleteResp : String → Nat × String) (dry_run : Bool) :
    ∀ ts : List Tag, ts.filter (isOrphanTag digests) = [] →
      removeTagsGo ns nm digests deleteResp dry_run ts = ([], none) := by
  intro ts
  induction ts with
  | nil => intro _; rfl
  | cons t ts ih =>
    intro h
    rw [List.filter_cons] at h
    cases hm : tagRegexMatch t.name with
    | none =>
      rw [show isOrphanTag digests t = false by simp [isOrphanTag, hm]] at h
      simp only [if_neg Bool.false_ne_true] at h
      simpa [removeTagsGo, hm] using ih h
    | some hex =>
      by_cases hc : digests.contains ("sha256:" ++ hex) = true
      · have hmem : "sha256:" ++ hex ∈ digests := by simpa using hc
        rw [show isOrphanTag digests t = false by simp [isOrphanTag, hm, hmem]] at h
        simp only [if_neg Bool.false_ne_true] at h
        simpa [removeTagsGo, hm, hmem] using ih h
      · rw [Bool.not_eq_true] at hc
        have hmem : "sha256:" ++ hex ∉ digests := by simpa using hc
        rw [show isOrphanTag digests t = true by simp [isOrphanTag, hm, hmem]] at h
        simp at h

/-- If exactly one tag of the list is orphaned, the `remove_tags` loop
emits exactly one would-remove log in dry-run mode, and exactly one
removing log followed by one DELETE request in live mode. -/
theorem removeTagsGo_single_orphan (ns nm : String) (digests : List String)
    (deleteResp : String → Nat × String) :
    ∀ (ts : List Tag) (t0 : Tag), ts.filter (isOrphanTag digests) = [t0] →
      removeTagsGo ns nm digests deleteResp true ts
        = ([Action.logWouldRemove ns nm t0.name], none) ∧
      (removeTagsGo ns nm digests deleteResp false ts).1
        = [Action.logRemoving ns nm t0.name, Action.deleteReq ns nm t0.name] := by
  intro ts
  induction ts with
  | nil => intro t0 h; simp at h
  | cons t ts ih =>
    intro t0 h
    rw [List.filter_cons] at h
    cases hm : tagRegexMatch t.name with
    | none =>
      rw [show isOrphanTag digests t = false by simp [isOrphanTag, hm]] at h
      simp only [if_neg Bool.false_ne_true] at h
      obtain ⟨h1, h2⟩ := ih t0 h
      exact ⟨by simpa [removeTagsGo, hm] using h1, by simpa [removeTagsGo, hm] using h2⟩
    | some hex =>
      by_cases hc : digests.contains ("sha256:" ++ hex) = true
      · have hmem : "sha256:" ++ hex ∈ digests := by simpa using hc
        rw [show isOrphanTag digests t = false by simp [isOrphanTag, hm, hmem]] at h
        simp only [if_neg Bool.false_ne_true] at h
        obtain ⟨h1, h2⟩ := ih t0 h
        exact ⟨by simpa [removeTagsGo, hm, hmem] using h1,
               by simpa [removeTagsGo, hm, hmem] using h2⟩
      · rw [Bool.not_eq_true] at hc
        have hmem : "sha256:" ++ hex ∉ digests := by simpa using hc
        rw [show isOrphanTag digests t = true by simp [isOrphanTag, hm, hmem]] at h
        rw [if_pos rfl] at h
        obtain ⟨ht, hrest⟩ := List.cons_eq_cons.mp h
        subst ht
        have hnil := removeTagsGo_no_orphans ns nm digests deleteResp false ts hrest
        have hnil' := removeTagsGo_no_orphans ns nm digests deleteResp true ts hrest
        constructor
        · simp [removeTagsGo, hm, hmem, hnil']
        · cases hdel : delete_image_tag (deleteResp t.name).1 (deleteResp t.name).2 with
          | ok u => simp [removeTagsGo, hm, hmem, hdel, hnil]
          | error e => simp [removeTagsGo, hm, hmem, hdel]

/-- Characterization of successful `get_quay_tags` runs: the loop consumes
a non-empty prefix of the response script, returns the concatenation of
the consumed batches appended to the accumulator, issues one request per
consumed response (first with the given `page` cursor, then with each
response's `page + 1`), continues exactly while a consumed response has a
non-empty batch and `has_additional`, and stops at the first response with
an empty batch or without `has_additional`. -/
theorem getQuayTagsGo_ok_characterization (ns nm : String) :
    ∀ (resps : List TagsResp) (np : Option Int) (acc ts : List Tag),
      (getQuayTagsGo ns nm np acc resps).2 = Except.ok ts →
      ∃ pre last rest, resps = pre ++ last :: rest ∧
        ts = acc ++ ((pre ++ [last]).map TagsResp.tags).join ∧
        (getQuayTagsGo ns nm np acc resps).1
          = Action.listTagsReq ns nm 100 true np ::
            pre.map (fun p => Action.listTagsReq ns nm 100 true (p.page.map (· + 1))) ∧
        (∀ p ∈ pre, p.status = 200 ∧ p.tags ≠ [] ∧ p.has_additional = true ∧
          p.page ≠ none) ∧
        last.status = 200 ∧ (last.tags = [] ∨ last.has_additional = false) := by
  intro resps
  induction resps with
  | nil => intro np acc ts h; simp [getQuayTagsGo] at h
  | cons r rs ih =>
    intro np acc ts h
    by_cases h4 : 400 ≤ r.status
    · simp [getQuayTagsGo, h4] at h
    by_cases h200 : r.status = 200
    case neg => simp [getQuayTagsGo, h4, h200] at h
    by_cases htags : r.tags = []
    · have hts : ts = acc := by
        have h' := h
        simp [getQuayTagsGo, h4, h200, htags] at h'
        exact h'.symm
      refine ⟨[], r, rs, rfl, ?_, ?_, by simp, h200, Or.inl htags⟩
      · rw [hts]; simp [htags]
      · simp [getQuayTagsGo, h4, h200, htags]
    by_cases hadd : r.has_additional = true
    · cases hp : r.page with
      | none => simp [getQuayTagsGo, h4, h200, htags, hadd, hp] at h
      | some p =>
        have hrec : (getQuayTagsGo ns nm (some (p + 1)) (acc ++ r.tags) rs).2
            = Except.ok ts := by
          simpa [getQuayTagsGo, h4, h200, htags, hadd, hp] using h
        obtain ⟨pre, last, rest, hre, hts, hreqs, hpre, hlast⟩ :=
          ih (some (p + 1)) (acc ++ r.tags) ts hrec
        refine ⟨r :: pre, last, rest, by rw [hre]; simp, ?_, ?_, ?_, hlast⟩
        · rw [hts]
          simp [List.append_assoc]
        · have hgo : (getQuayTagsGo ns nm np acc (r :: rs)).1
              = Action.listTagsReq ns nm 100 true np ::
                (getQuayTagsGo ns nm (some (p + 1)) (acc ++ r.tags) rs).1 := by
            simp [getQuayTagsGo, h4, h200, htags, hadd, hp]
          rw [hgo, hreqs]
          simp [hp]
        · intro q hq
          rcases List.mem_cons.mp hq with hq | hq
          · subst hq
            exact ⟨h200, htags, hadd, by rw [hp]; exact fun hcon => Option.noConfusion hcon⟩
          · exact hpre q hq
    · rw [Bool.not_eq_true] at hadd
      refine ⟨[], r, rs, rfl, ?_, ?_, by simp, h200, Or.inr hadd⟩
      · have : ts = acc ++ r.tags := by
          have := h
          simp [getQuayTagsGo, h4, h200, htags, hadd] at this
          exact this.symm
        rw [this]
        simp
      · simp [getQuayTagsGo, h4, h200, htags, hadd]

/-- Dropping the empty batches from a list of lists does not change its
concatenation. -/
theorem join_filter_nonempty {α : Type} :
    ∀ l : List (List α), (l.filter (fun b => !b.isEmpty)).join = l.join := by
  intro l
  induction l with
  | nil => rfl
  | cons b l ih =>
    by_cases hb : b = []
    · subst hb; simpa [List.filter_cons] using ih
    · have : b.isEmpty = false := by simp [hb]
      simp [List.filter_cons, this, ih]

/-- Characterization of exception-free `fetch_image_repos` runs: the
generator consumes a non-empty prefix of the response script, yields
exactly the non-empty repository batches of the consumed responses as
received, issues one request per consumed response (first with the given
cursor, then with each response's `next_page`), and stops at the first
response with an empty batch (not yielded) or without a `next_page`
cursor. -/
theorem fetchImageReposGo_ok_characterization (access_token namespace_ : String) :
    ∀ (resps : List ReposResp) (np : Option String),
      (fetchImageReposGo access_token namespace_ np resps).2.2 = none →
      ∃ pre last rest, resps = pre ++ last :: rest ∧
        (fetchImageReposGo access_token namespace_ np resps).1
          = Action.listReposReq np ::
            pre.map (fun p => Action.listReposReq p.next_page) ∧
        (fetchImageReposGo access_token namespace_ np resps).2.1
          = ((pre ++ [last]).map ReposResp.repositories).filter (fun b => !b.isEmpty) ∧
        (∀ p ∈ pre, p.status = 200 ∧ p.repositories ≠ [] ∧ p.next_page ≠ none) ∧
        last.status = 200 ∧ (last.repositories = [] ∨ last.next_page = none) := by
  intro resps
  induction resps with
  | nil => intro np h; simp [fetchImageReposGo] at h
  | cons r rs ih =>
    intro np h
    by_cases h4 : 400 ≤ r.status
    · simp [fetchImageReposGo, h4] at h
    by_cases h200 : r.status = 200
    case neg => simp [fetchImageReposGo, h4, h200] at h
    by_cases hrep : r.repositories = []
    · refine ⟨[], r, rs, rfl, ?_, ?_, by simp, h200, Or.inl hrep⟩
      · simp [fetchImageReposGo, h4, h200, hrep]
      · simp [fetchImageReposGo, h4, h200, hrep]
    · cases hnp : r.next_page with
      | none =>
        refine ⟨[], r, rs, rfl, ?_, ?_, by simp, h200, Or.inr hnp⟩
        · simp [fetchImageReposGo, h4, h200, hrep, hnp]
        · have : r.repositories.isEmpty = false := by simp [hrep]
          simp [fetchImageReposGo, h4, h200, hrep, hnp, List.filter_cons, this]
      | some np' =>
        have hrec : (fetchImageReposGo access_token namespace_ (some np') rs).2.2
            = none := by
          simpa [fetchImageReposGo, h4, h200, hrep, hnp] using h
        obtain ⟨pre, last, rest, hre, hreqs, hbatch, hpre, hlast⟩ := ih (some np') hrec
        refine ⟨r :: pre, last, rest, by rw [hre]; simp, ?_, ?_, ?_, hlast⟩
        · have hgo : (fetchImageReposGo access_token namespace_ np (r :: rs)).1
              = Action.listReposReq np ::
                (fetchImageReposGo access_token namespace_ (some np') rs).1 := by
            simp [fetchImageReposGo, h4, h200, hrep, hnp]
          rw [hgo, hreqs]
          simp [hnp]
        · have hgo : (fetchImageReposGo access_token namespace_ np (r :: rs)).2.1
              = r.repositories ::
                (fetchImageReposGo access_token namespace_ (some np') rs).2.1 := by
            simp [fetchImageReposGo, h4, h200, hrep, hnp]
          have : r.repositories.isEmpty = false := by simp [hrep]
          rw [hgo, hbatch]
          simp [List.filter_cons, this]
        · intro q hq
          rcases List.mem_cons.mp hq with hq | hq
          · subst hq
            exact ⟨h200, hrep, by rw [hnp]; exact fun hcon => Option.noConfusion hcon⟩
          · exact hpre q hq

/-! ### Claims -/

/-- The three-tag example from the spec: `v1`, `sha256-aaa.sbom`,
`sha256-ccc.att`. -/
def exampleTags : List Tag :=
  [⟨"v1", some "sha256:aaa"⟩, ⟨"sha256-aaa.sbom", some "sha256:bbb"⟩,
   ⟨"sha256-ccc.att", some "sha256:ddd"⟩]

/-- C3: on the example list, `remove_tags` selects exactly the single tag
`sha256-ccc.att`: in dry-run mode it logs exactly one would-remove line for
it, and in live mode it logs and deletes exactly it; `sha256-aaa.sbom` is
kept because its embedded digest `sha256:aaa` equals `v1`'s
`manifest_digest`. -/
theorem C3_example_selects_exactly_ccc_att :
    remove_tags exampleTags "tok" "acme" "app" (fun _ => (204, "No Content")) true
      = ([Action.logWouldRemove "acme" "app" "sha256-ccc.att"], none) ∧
    remove_tags exampleTags "tok" "acme" "app" (fun _ => (204, "No Content")) false
      = ([Action.logRemoving "acme" "app" "sha256-ccc.att",
          Action.deleteReq "acme" "app" "sha256-ccc.att"], none) := by
  decide

/-- C4: `delete_image_tag` returns normally exactly for statuses 200, 204
and 404; any other status raises an error carrying the reason (and, for
HTTP-level 4xx/5xx failures such as 500, the status). -/
theorem C4_delete_status_contract (status : Nat) (reason : String) :
    (delete_image_tag status reason = Except.ok () ↔
      status = 200 ∨ status = 204 ∨ status = 404) ∧
    (¬(status = 200 ∨ status = 204 ∨ status = 404) →
      delete_image_tag status reason =
        Except.error (if 400 ≤ status then Err.httpError status reason
          else Err.runtimeError reason)) := by
  unfold delete_image_tag
  constructor
  · split_ifs with h1 h2 h3 <;> simp_all <;> omega
  · intro h
    split_ifs with h1 h2 h3 <;> simp_all

/-- Witness for C4 at statuses 500 and 404. -/
theorem C4_delete_status_contract_witness :
    delete_image_tag 500 "Internal Server Error"
      = Except.error (Err.httpError 500 "Internal Server Error") ∧
    delete_image_tag 404 "Not Found" = Except.ok () := by
  constructor
  · simpa using (C4_delete_status_contract 500 "Internal Server Error").2 (by decide)
  · exact (C4_delete_status_contract 404 "Not Found").1.mpr (Or.inr (Or.inr rfl))

/-- C8: with `QUAY_TOKEN` absent, `main` raises `ValueError` immediately:
the trace is empty, so no network request of any kind is issued. -/
theorem C8_missing_token_fails_fast (namespace_ : String) (dry_run : Bool)
    (reposScript : List ReposResp)
    (tagScript : String → String → List TagsResp)
    (deleteScript : String → String → String → Nat × String) :
    main none namespace_ dry_run reposScript tagScript deleteScript
      = ([], some (Err.valueError
          "The token required for access to Quay API is missing!")) := rfl

/-- C9: if any tag in the input lacks the `manifest_digest` key,
`remove_tags` raises `KeyError` while building the digest list, before
reporting or deleting anything — the trace is empty. -/
theorem C9_missing_digest_raises_keyerror (tags : List Tag)
    (quay_token ns nm : String) (deleteResp : String → Nat × String)
    (dry_run : Bool) (h : ∃ t ∈ tags, t.manifest_digest = none) :
    remove_tags tags quay_token ns nm deleteResp dry_run
      = ([], some (Err.keyError "manifest_digest")) := by
  unfold remove_tags
  rw [collectDigests_error_of_none h]

/-- Witness for C9: a list with a digest-less non-derived tag `latest`. -/
theorem C9_missing_digest_raises_keyerror_witness :
    remove_tags [⟨"v1", some "sha256:aaa"⟩, ⟨"latest", none⟩]
        "tok" "acme" "app" (fun _ => (204, "No Content")) false
      = ([], some (Err.keyError "manifest_digest")) :=
  C9_missing_digest_raises_keyerror _ _ _ _ _ _ ⟨⟨"latest", none⟩, by decide, rfl⟩

/-- C10: a 200 tag-listing response with a non-empty batch and
`has_additional = true` but no `page` field makes `get_quay_tags` fail
with `TypeError` (`None + 1`); when the batch is empty or `has_additional`
is false the run ends successfully without ever reading `page`. -/
theorem C10_page_field_requirement (quay_token ns nm : String)
    (r : TagsResp) (rs : List TagsResp) (h200 : r.status = 200) :
    (r.tags ≠ [] → r.has_additional = true → r.page = none →
      get_quay_tags quay_token ns nm (r :: rs)
        = ([Action.listTagsReq ns nm 100 true none], Except.error Err.typeError)) ∧
    ((r.tags = [] ∨ r.has_additional = false) →
      get_quay_tags quay_token ns nm (r :: rs)
        = ([Action.listTagsReq ns nm 100 true none], Except.ok r.tags)) := by
  obtain ⟨st, reason, tags, page, hadd⟩ := r
  simp only at h200
  subst h200
  constructor
  · intro htags haddl hpage
    simp only at htags haddl hpage
    subst haddl hpage
    simp [get_quay_tags, getQuayTagsGo, htags]
  · rintro (htags | haddl)
    · simp only at htags
      subst htags
      simp [get_quay_tags, getQuayTagsGo]
    · simp only at haddl
      subst haddl
      by_cases htags : tags = []
      · subst htags; simp [get_quay_tags, getQuayTagsGo]
      · simp [get_quay_tags, getQuayTagsGo, htags]

/-- C2 counterexample: `get_quay_tags` does not deduplicate.  When the
same tag appears on two consecutive pages, the returned list contains it
twice, refuting the claim that every tag appears exactly once in the
result for every sequence of page responses. -/
theorem C2_no_dedup_counterexample :
    (get_quay_tags "tok" "acme" "app"
        [⟨200, "OK", [⟨"v1", some "sha256:aaa"⟩], some 1, true⟩,
         ⟨200, "OK", [⟨"v1", some "sha256:aaa"⟩], some 2, false⟩]).2
      = Except.ok [⟨"v1", some "sha256:aaa"⟩, ⟨"v1", some "sha256:aaa"⟩] ∧
    List.count (Tag.mk "v1" (some "sha256:aaa"))
        [Tag.mk "v1" (some "sha256:aaa"), Tag.mk "v1" (some "sha256:aaa")] ≠ 1 :=
  ⟨rfl, by decide⟩

/-- C2 (amended): a successful `get_quay_tags` run returns the
concatenation of the tag batches of the consumed pages (each occurrence
preserved, no deduplication), requesting each page with `limit=100` and
`onlyActiveTags=true`, with no `page` parameter on the first request and
`page` equal to the previous response's `page + 1` afterwards, consuming
further pages exactly while a page has a non-empty batch and
`has_additional`, and stopping at the first page with an empty batch or
with `has_additional` false. -/
theorem C2_pagination_concatenation (quay_token ns nm : String)
    (resps : List TagsResp) (ts : List Tag)
    (h : (get_quay_tags quay_token ns nm resps).2 = Except.ok ts) :
    ∃ pre last rest, resps = pre ++ last :: rest ∧
      ts = ((pre ++ [last]).map TagsResp.tags).join ∧
      (get_quay_tags quay_token ns nm resps).1
        = Action.listTagsReq ns nm 100 true none ::
          pre.map (fun p => Action.listTagsReq ns nm 100 true (p.page.map (· + 1))) ∧
      (∀ p ∈ pre, p.status = 200 ∧ p.tags ≠ [] ∧ p.has_additional = true ∧
        p.page ≠ none) ∧
      last.status = 200 ∧ (last.tags = [] ∨ last.has_additional = false) := by
  have hc := getQuayTagsGo_ok_characterization ns nm resps none [] ts h
  simpa [get_quay_tags] using hc

/-- Witness for C2 (amended) on a concrete two-page run. -/
theorem C2_pagination_concatenation_witness :
    ∃ pre last rest,
      ([⟨200, "OK", [⟨"v1", some "sha256:aaa"⟩], some 1, true⟩,
        ⟨200, "OK", [⟨"v2", some "sha256:bbb"⟩], some 2, false⟩] : List TagsResp)
        = pre ++ last :: rest ∧
      ([⟨"v1", some "sha256:aaa"⟩, ⟨"v2", some "sha256:bbb"⟩] : List Tag)
        = ((pre ++ [last]).map TagsResp.tags).join ∧
      (get_quay_tags "tok" "acme" "app"
          [⟨200, "OK", [⟨"v1", some "sha256:aaa"⟩], some 1, true⟩,
           ⟨200, "OK", [⟨"v2", some "sha256:bbb"⟩], some 2, false⟩]).1
        = Action.listTagsReq "acme" "app" 100 true none ::
          pre.map (fun p => Action.listTagsReq "acme" "app" 100 true
            (p.page.map (· + 1))) ∧
      (∀ p ∈ pre, p.status = 200 ∧ p.tags ≠ [] ∧ p.has_additional = true ∧
        p.page ≠ none) ∧
      last.status = 200 ∧ (last.tags = [] ∨ last.has_additional = false) :=
  C2_pagination_concatenation "tok" "acme" "app"
    [⟨200, "OK", [⟨"v1", some "sha256:aaa"⟩], some 1, true⟩,
     ⟨200, "OK", [⟨"v2", some "sha256:bbb"⟩], some 2, false⟩]
    [⟨"v1", some "sha256:aaa"⟩, ⟨"v2", some "sha256:bbb"⟩] rfl

/-- C7: an exception-free `fetch_image_repos` run yields exactly the
non-empty repository batches of the consumed responses, as received and in
page order (so their concatenation is the concatenation of all consumed
pages' items), requests `next_page` from the second request on, stops
exactly at the first response without a `next_page` cursor or with an
empty batch, and never yields an empty batch. -/
theorem C7_repo_listing_yields_all_pages (access_token namespace_ : String)
    (resps : List ReposResp)
    (h : (fetch_image_repos access_token namespace_ resps).2.2 = none) :
    ∃ pre last rest, resps = pre ++ last :: rest ∧
      (fetch_image_repos access_token namespace_ resps).1
        = Action.listReposReq none ::
          pre.map (fun p => Action.listReposReq p.next_page) ∧
      (fetch_image_repos access_token namespace_ resps).2.1
        = ((pre ++ [last]).map ReposResp.repositories).filter (fun b => !b.isEmpty) ∧
      ((fetch_image_repos access_token namespace_ resps).2.1).join
        = ((pre ++ [last]).map ReposResp.repositories).join ∧
      (∀ b ∈ (fetch_image_repos access_token namespace_ resps).2.1, b ≠ []) ∧
      (∀ p ∈ pre, p.status = 200 ∧ p.repositories ≠ [] ∧ p.next_page ≠ none) ∧
      last.status = 200 ∧ (last.repositories = [] ∨ last.next_page = none) := by
  obtain ⟨pre, last, rest, hre, hreqs, hbatch, hpre, hlast⟩ :=
    fetchImageReposGo_ok_characterization access_token namespace_ resps none h
  unfold fetch_image_repos
  refine ⟨pre, last, rest, hre, hreqs, hbatch, ?_, ?_, hpre, hlast⟩
  · rw [hbatch, join_filter_nonempty]
  · intro b hb
    rw [hbatch] at hb
    have := List.of_mem_filter hb
    simpa using this

/-- Witness for C7 on a concrete three-page run. -/
theorem C7_repo_listing_yields_all_pages_witness :
    ∃ pre last rest,
      ([⟨200, "OK", [⟨"acme", "a"⟩], some "p2"⟩,
        ⟨200, "OK", [⟨"acme", "b"⟩], some "p3"⟩,
        ⟨200, "OK", [⟨"acme", "c"⟩], none⟩] : List ReposResp)
        = pre ++ last :: rest ∧
      (fetch_image_repos "tok" "acme"
          [⟨200, "OK", [⟨"acme", "a"⟩], some "p2"⟩,
           ⟨200, "OK", [⟨"acme", "b"⟩], some "p3"⟩,
           ⟨200, "OK", [⟨"acme", "c"⟩], none⟩]).1
        = Action.listReposReq none ::
          pre.map (fun p => Action.listReposReq p.next_page) ∧
      (fetch_image_repos "tok" "acme"
          [⟨200, "OK", [⟨"acme", "a"⟩], some "p2"⟩,
           ⟨200, "OK", [⟨"acme", "b"⟩], some "p3"⟩,
           ⟨200, "OK", [⟨"acme", "c"⟩], none⟩]).2.1
        = ((pre ++ [last]).map ReposResp.repositories).filter (fun b => !b.isEmpty) ∧
      ((fetch_image_repos "tok" "acme"
          [⟨200, "OK", [⟨"acme", "a"⟩], some "p2"⟩,
           ⟨200, "OK", [⟨"acme", "b"⟩], some "p3"⟩,
           ⟨200, "OK", [⟨"acme", "c"⟩], none⟩]).2.1).join
        = ((pre ++ [last]).map ReposResp.repositories).join ∧
      (∀ b ∈ (fetch_image_repos "tok" "acme"
          [⟨200, "OK", [⟨"acme", "a"⟩], some "p2"⟩,
           ⟨200, "OK", [⟨"acme", "b"⟩], some "p3"⟩,
           ⟨200, "OK", [⟨"acme", "c"⟩], none⟩]).2.1, b ≠ []) ∧
      (∀ p ∈ pre, p.status = 200 ∧ p.repositories ≠ [] ∧ p.next_page ≠ none) ∧
      last.status = 200 ∧ (last.repositories = [] ∨ last.next_page = none) :=
  C7_repo_listing_yields_all_pages "tok" "acme"
    [⟨200, "OK", [⟨"acme", "a"⟩], some "p2"⟩,
     ⟨200, "OK", [⟨"acme", "b"⟩], some "p3"⟩,
     ⟨200, "OK", [⟨"acme", "c"⟩], none⟩] rfl

/-- C1: every tag name that `remove_tags` reports (dry run) or deletes
matches the derived-artifact regex and its reconstructed digest
`sha256:<hex>` is absent from the `manifest_digest` values of the input
list; in particular a tag named `latest` is never reported or deleted. -/
theorem C1_reported_tags_are_orphans (tags : List Tag) (quay_token ns nm : String)
    (deleteResp : String → Nat × String) (dry_run : Bool) :
    (∀ n : String,
      (Action.logWouldRemove ns nm n
          ∈ (remove_tags tags quay_token ns nm deleteResp dry_run).1 ∨
       Action.logRemoving ns nm n
          ∈ (remove_tags tags quay_token ns nm deleteResp dry_run).1 ∨
       Action.deleteReq ns nm n
          ∈ (remove_tags tags quay_token ns nm deleteResp dry_run).1) →
      ∃ hex, tagRegexMatch n = some hex ∧
        (tags.filterMap Tag.manifest_digest).contains ("sha256:" ++ hex) = false) ∧
    (Action.logWouldRemove ns nm "latest"
        ∉ (remove_tags tags quay_token ns nm deleteResp dry_run).1 ∧
     Action.logRemoving ns nm "latest"
        ∉ (remove_tags tags quay_token ns nm deleteResp dry_run).1 ∧
     Action.deleteReq ns nm "latest"
        ∉ (remove_tags tags quay_token ns nm deleteResp dry_run).1) := by
  have hmain : ∀ n : String,
      (Action.logWouldRemove ns nm n
          ∈ (remove_tags tags quay_token ns nm deleteResp dry_run).1 ∨
       Action.logRemoving ns nm n
          ∈ (remove_tags tags quay_token ns nm deleteResp dry_run).1 ∨
       Action.deleteReq ns nm n
          ∈ (remove_tags tags quay_token ns nm deleteResp dry_run).1) →
      ∃ hex, tagRegexMatch n = some hex ∧
        (tags.filterMap Tag.manifest_digest).contains ("sha256:" ++ hex) = false := by
    intro n hn
    unfold remove_tags at hn
    cases hcd : collectDigests tags with
    | error e => rw [hcd] at hn; simp at hn
    | ok ds =>
      rw [hcd] at hn
      simp only at hn
      have hds := collectDigests_ok_eq hcd
      have extract : ∀ a : Action,
          a ∈ (removeTagsGo ns nm ds deleteResp dry_run tags).1 →
          (a = Action.logWouldRemove ns nm n ∨ a = Action.logRemoving ns nm n ∨
           a = Action.deleteReq ns nm n) →
          ∃ hex, tagRegexMatch n = some hex ∧
            (tags.filterMap Tag.manifest_digest).contains ("sha256:" ++ hex) = false := by
        intro a ha hform
        obtain ⟨t, htmem, hex, hmatch, habs, hshape⟩ :=
          removeTagsGo_mem_orphan ns nm ds deleteResp dry_run tags a ha
        have hname : t.name = n := by
          rcases hform with h | h | h <;> rcases hshape with h2 | h2 | h2 <;>
            rw [h] at h2 <;> cases h2 <;> rfl
        rw [hds] at habs
        exact ⟨hex, hname ▸ hmatch, habs⟩
      rcases hn with h | h | h
      · exact extract _ h (Or.inl rfl)
      · exact extract _ h (Or.inr (Or.inl rfl))
      · exact extract _ h (Or.inr (Or.inr rfl))
  refine ⟨hmain, ?_, ?_, ?_⟩
  · intro hmem
    obtain ⟨hex, hmatch, _⟩ := hmain "latest" (Or.inl hmem)
    rw [show tagRegexMatch "latest" = none from by decide] at hmatch
    cases hmatch
  · intro hmem
    obtain ⟨hex, hmatch, _⟩ := hmain "latest" (Or.inr (Or.inl hmem))
    rw [show tagRegexMatch "latest" = none from by decide] at hmatch
    cases hmatch
  · intro hmem
    obtain ⟨hex, hmatch, _⟩ := hmain "latest" (Or.inr (Or.inr hmem))
    rw [show tagRegexMatch "latest" = none from by decide] at hmatch
    cases hmatch

/-- Witness for C1: the reported tag of the example list.  -/
theorem C1_reported_tags_are_orphans_witness :
    ∃ hex, tagRegexMatch "sha256-ccc.att" = some hex ∧
      (exampleTags.filterMap Tag.manifest_digest).contains ("sha256:" ++ hex)
        = false :=
  (C1_reported_tags_are_orphans exampleTags "tok" "acme" "app"
    (fun _ => (204, "No Content")) true).1 "sha256-ccc.att" (Or.inl (by decide))

/-- C5: on a tag list with exactly one orphaned tag, dry-run mode emits
exactly one would-remove log line and no DELETE request at all, while live
mode emits exactly one removing log line followed by exactly one DELETE
request for that tag's name. -/
theorem C5_single_orphan_single_action (tags : List Tag) (quay_token ns nm : String)
    (deleteResp : String → Nat × String) (ds : List String) (t0 : Tag)
    (hds : collectDigests tags = Except.ok ds)
    (horph : tags.filter (isOrphanTag ds) = [t0]) :
    remove_tags tags quay_token ns nm deleteResp true
      = ([Action.logWouldRemove ns nm t0.name], none) ∧
    (remove_tags tags quay_token ns nm deleteResp false).1
      = [Action.logRemoving ns nm t0.name, Action.deleteReq ns nm t0.name] := by
  have h := removeTagsGo_single_orphan ns nm ds deleteResp tags t0 horph
  constructor
  · unfold remove_tags
    rw [hds]
    exact h.1
  · unfold remove_tags
    rw [hds]
    exact h.2

/-- Witness for C5 on the example list, whose single orphan is
`sha256-ccc.att`. -/
theorem C5_single_orphan_single_action_witness :
    remove_tags exampleTags "tok" "acme" "app" (fun _ => (500, "ISE")) true
      = ([Action.logWouldRemove "acme" "app" "sha256-ccc.att"], none) ∧
    (remove_tags exampleTags "tok" "acme" "app" (fun _ => (500, "ISE")) false).1
      = [Action.logRemoving "acme" "app" "sha256-ccc.att",
         Action.deleteReq "acme" "app" "sha256-ccc.att"] :=
  C5_single_orphan_single_action exampleTags "tok" "acme" "app"
    (fun _ => (500, "ISE")) ["sha256:aaa", "sha256:bbb", "sha256:ddd"]
    ⟨"sha256-ccc.att", some "sha256:ddd"⟩ rfl (by decide)

/-- The success or failure of processing one repository does not depend on
the value of the diagnostic counter, which only appears in the log line. -/
theorem processOne_err_ctr_irrelevant (quay_token : String) (dry_run : Bool)
    (tagScript : String → String → List TagsResp)
    (deleteScript : String → String → String → Nat × String)
    (ctr : Nat) (repo : ImageRepo) :
    (processOne quay_token dry_run tagScript deleteScript ctr repo).2
      = (processOne quay_token dry_run tagScript deleteScript 0 repo).2 := by
  unfold processOne
  cases h : (get_quay_tags quay_token repo.namespace_ repo.name
      (tagScript repo.namespace_ repo.name)).2 with
  | error e => simp [h]
  | ok all_tags =>
    by_cases ha : all_tags = [] <;> simp [h, ha]

/-- If every repository before `bad` processes without an exception and
`bad` raises one, `process_repositories` behaves exactly as if the
repositories after `bad` were not in the list at all, and propagates
`bad`'s exception. -/
theorem process_repositories_fatal (quay_token : String) (dry_run : Bool)
    (tagScript : String → String → List TagsResp)
    (deleteScript : String → String → String → Nat × String)
    (e : Err) (pre post : List ImageRepo) (bad : ImageRepo)
    (hpre : ∀ r ∈ pre, (processOne quay_token dry_run tagScript deleteScript 0 r).2
      = none)
    (hbad : (processOne quay_token dry_run tagScript deleteScript 0 bad).2 = some e) :
    ∀ ctr : Nat,
      process_repositories quay_token dry_run tagScript deleteScript ctr
          (pre ++ bad :: post)
        = process_repositories quay_token dry_run tagScript deleteScript ctr
          (pre ++ [bad]) ∧
      (process_repositories quay_token dry_run tagScript deleteScript ctr
          (pre ++ bad :: post)).2 = some e := by
  induction pre with
  | nil =>
    intro ctr
    have hb : (processOne quay_token dry_run tagScript deleteScript ctr bad).2
        = some e :=
      (processOne_err_ctr_irrelevant quay_token dry_run tagScript deleteScript
        ctr bad).trans hbad
    constructor
    · simp [process_repositories, hb]
    · simp [process_repositories, hb]
  | cons r pre ih =>
    intro ctr
    have hr : (processOne quay_token dry_run tagScript deleteScript ctr r).2 = none :=
      (processOne_err_ctr_irrelevant quay_token dry_run tagScript deleteScript
        ctr r).trans (hpre r (List.mem_cons_self r pre))
    have ih' := ih (fun x hx => hpre x (List.mem_cons_of_mem _ hx)) (ctr + 1)
    constructor
    · simp only [List.cons_append, process_repositories, hr, List.append_eq]
      rw [ih'.1]
    · simp only [List.cons_append, process_repositories, hr, List.append_eq]
      simp [ih'.2]

/-- C6: an exception while processing a repository (for instance an
`ApiError` from listing tags or from a delete) is fatal for the whole run:
`process_repositories` returns with that exception and behaves exactly as
if the repositories after the failing one did not exist (they are never
processed), and the exception propagates out of `main` unchanged. -/
theorem C6_apierror_aborts_whole_run (quay_token namespace_ : String)
    (dry_run : Bool) (tagScript : String → String → List TagsResp)
    (deleteScript : String → String → String → Nat × String)
    (e : Err) (pre post : List ImageRepo) (bad : ImageRepo)
    (hpre : ∀ r ∈ pre, (processOne quay_token dry_run tagScript deleteScript 0 r).2
      = none)
    (hbad : (processOne quay_token dry_run tagScript deleteScript 0 bad).2 = some e) :
    (∀ ctr : Nat,
      process_repositories quay_token dry_run tagScript deleteScript ctr
          (pre ++ bad :: post)
        = process_repositories quay_token dry_run tagScript deleteScript ctr
          (pre ++ [bad]) ∧
      (process_repositories quay_token dry_run tagScript deleteScript ctr
          (pre ++ bad :: post)).2 = some e) ∧
    (∀ (r : ReposResp) (rest : List ReposResp),
      r.status = 200 → r.repositories = pre ++ bad :: post → quay_token ≠ "" →
      (main (some quay_token) namespace_ dry_run (r :: rest) tagScript
          deleteScript).2 = some e) := by
  have hfatal := process_repositories_fatal quay_token dry_run tagScript
    deleteScript e pre post bad hpre hbad
  refine ⟨hfatal, ?_⟩
  intro r rest h200 hreps htok
  have hne : r.repositories ≠ [] := by
    rw [hreps]
    exact List.append_ne_nil_of_right_ne_nil pre (List.cons_ne_nil bad post)
  have hproc : (process_repositories quay_token dry_run tagScript deleteScript 0
      r.repositories).2 = some e := by
    rw [hreps]
    exact (hfatal 0).2
  simp only [main, htok, if_neg htok]
  simp [mainLoop, h200, hne, hproc]

/-- Witness for C6: one healthy repository, then one whose single orphan
tag gets a 500 on DELETE, then one more repository that must stay
unprocessed. -/
theorem C6_apierror_aborts_whole_run_witness :
    (process_repositories "tok" false
        (fun _ nm => if nm = "b"
          then [⟨200, "OK", [⟨"sha256-ccc.att", some "sha256:ddd"⟩], none, false⟩]
          else [⟨200, "OK", [], none, false⟩])
        (fun _ _ _ => (500, "Internal Server Error")) 0
        ([⟨"acme", "a"⟩] ++ ⟨"acme", "b"⟩ :: [⟨"acme", "c"⟩])
      = process_repositories "tok" false
        (fun _ nm => if nm = "b"
          then [⟨200, "OK", [⟨"sha256-ccc.att", some "sha256:ddd"⟩], none, false⟩]
          else [⟨200, "OK", [], none, false⟩])
        (fun _ _ _ => (500, "Internal Server Error")) 0
        ([⟨"acme", "a"⟩] ++ [⟨"acme", "b"⟩])) ∧
    (process_repositories "tok" false
        (fun _ nm => if nm = "b"
          then [⟨200, "OK", [⟨"sha256-ccc.att", some "sha256:ddd"⟩], none, false⟩]
          else [⟨200, "OK", [], none, false⟩])
        (fun _ _ _ => (500, "Internal Server Error")) 0
        ([⟨"acme", "a"⟩] ++ ⟨"acme", "b"⟩ :: [⟨"acme", "c"⟩])).2
      = some (Err.httpError 500 "Internal Server Error") :=
  (C6_apierror_aborts_whole_run "tok" "acme" false
    (fun _ nm => if nm = "b"
      then [⟨200, "OK", [⟨"sha256-ccc.att", some "sha256:ddd"⟩], none, false⟩]
      else [⟨200, "OK", [], none, false⟩])
    (fun _ _ _ => (500, "Internal Server Error"))
    (Err.httpError 500 "Internal Server Error")
    [⟨"acme", "a"⟩] [⟨"acme", "c"⟩] ⟨"acme", "b"⟩
    (by decide) (by decide)).1 0

/-- Witness for C10 on concrete responses, exercising both conjuncts. -/
theorem C10_page_field_requirement_witness :
    get_quay_tags "tok" "acme" "app" [⟨200, "OK", [⟨"v1", some "sha256:aaa"⟩], none, true⟩]
      = ([Action.listTagsReq "acme" "app" 100 true none], Except.error Err.typeError) ∧
    get_quay_tags "tok" "acme" "app" [⟨200, "OK", [⟨"v1", some "sha256:aaa"⟩], none, false⟩]
      = ([Action.listTagsReq "acme" "app" 100 true none],
          Except.ok [⟨"v1", some "sha256:aaa"⟩]) := by
  constructor
  · exact (C10_page_field_requirement "tok" "acme" "app"
      ⟨200, "OK", [⟨"v1", some "sha256:aaa"⟩], none, true⟩ [] rfl).1
      (by decide) rfl rfl
  · exact (C10_page_field_requirement "tok" "acme" "app"
      ⟨200, "OK", [⟨"v1", some "sha256:aaa"⟩], none, false⟩ [] rfl).2 (Or.inr rfl)

end PruneImages
